import Mathlib

/-!
Verification of the persistence and resolution core of mcp-knowledge-graph
(src/index.ts), shallowly embedded in Lean.

The embedding works at the level of parsed JSON records: a backing file is a
sequence of lines, each either blank or one JSON value, exactly as the
TypeScript code sees them after splitting on newlines and JSON.parse.  The
text layer (JSON.stringify / JSON.parse of individual records) is assumed
faithful and is not modelled.
-/

namespace KG

/-- JSON values, as produced by JSON.parse, restricted to the shapes this
store reads and writes: strings, integers, arrays and objects.  An object is
the ordered list of its fields; JSON.parse never produces duplicate keys. -/
inductive Jval where
  | str (s : String)
  | num (n : Int)
  | arr (elems : List Jval)
  | obj (fields : List (String × Jval))
deriving Repr

/-- JavaScript property access `j.k` on a parsed JSON value: the field value
when `j` is an object carrying the key, undefined (`none`) otherwise. -/
def Jval.getField (j : Jval) (k : String) : Option Jval :=
  match j with
  | .obj fields => fields.lookup k
  | _ => none

/-- An entity: `interface Entity` of src/index.ts. -/
structure Entity where
  name : String
  entityType : String
  observations : List String
deriving Repr, DecidableEq

/-- A relation: `interface Relation` of src/index.ts. -/
structure Relation where
  «from» : String
  «to» : String
  relationType : String
deriving Repr, DecidableEq

/-- The in-memory graph: `interface KnowledgeGraph` of src/index.ts. -/
structure KnowledgeGraph where
  entities : List Entity
  relations : List Relation
deriving Repr, DecidableEq

/-- One line of a backing file, after splitting on newlines: blank (only
whitespace, filtered out by loadGraph) or one parsed JSON record. -/
inductive Line where
  | blank
  | content (j : Jval)
deriving Repr

/-- The non-blank lines of a file, in order: models
`data.split("\n").filter(line => line.trim() !== "")` followed by
JSON.parse of each survivor. -/
def nonBlank (ls : List Line) : List Jval :=
  ls.filterMap (fun l => match l with | .blank => none | .content j => some j)

/-- The fixed safety marker record FILE_MARKER of src/index.ts, with fields
type "_aim" and source "mcp-knowledge-graph". -/
def markerJval : Jval :=
  .obj [("type", .str "_aim"), ("source", .str "mcp-knowledge-graph")]

/-- The marker test of loadGraph, in the failing direction of the source:
`firstLine.type !== "_aim" || firstLine.source !== "mcp-knowledge-graph"`.
Only the two fields are inspected; other fields of the first record are not
examined. -/
def lacksMarker (j : Jval) : Bool :=
  (match j.getField "type" with | some (.str s) => s != "_aim" | _ => true) ||
  (match j.getField "source" with | some (.str s) => s != "mcp-knowledge-graph" | _ => true)

/-- The `type` discriminator test `item.type === t` on a parsed record. -/
def typeIs (j : Jval) (t : String) : Bool :=
  match j.getField "type" with
  | some (.str s) => s == t
  | _ => false

/-- String field extraction for the `as Entity` / `as Relation` casts: the
TypeScript cast keeps the parsed object and later reads its fields as
strings; records written by this store always carry string fields, so the
default for a missing or non-string field is never exercised on them. -/
def getStr (j : Jval) (k : String) : String :=
  match j.getField k with
  | some (.str s) => s
  | _ => ""

/-- String array field extraction, companion of getStr for observations. -/
def getStrList (j : Jval) (k : String) : List String :=
  match j.getField k with
  | some (.arr elems) => elems.map (fun v => match v with | .str s => s | _ => "")
  | _ => []

/-- The view of a parsed record as an Entity (the `item as Entity` cast). -/
def jvalToEntity (j : Jval) : Entity :=
  { name := getStr j "name"
    entityType := getStr j "entityType"
    observations := getStrList j "observations" }

/-- The view of a parsed record as a Relation (the `item as Relation` cast). -/
def jvalToRelation (j : Jval) : Relation :=
  { «from» := getStr j "from"
    «to» := getStr j "to"
    relationType := getStr j "relationType" }

/-- Errors the store can raise; the interpolated file path of the marker
message is abstracted away, the entity name of the not-found message is kept. -/
inductive StoreError where
  | markerError
  | entityNotFound (name : String)
deriving Repr, DecidableEq

/-- One step of the reduce loop of loadGraph: push the record onto the
entity collection when its type is "entity", onto the relation collection
when its type is "relation", ignore it otherwise. -/
def insertItem (g : KnowledgeGraph) (item : Jval) : KnowledgeGraph :=
  let g1 := if typeIs item "entity"
            then { g with entities := g.entities ++ [jvalToEntity item] } else g
  if typeIs item "relation"
  then { g1 with relations := g1.relations ++ [jvalToRelation item] } else g1

/-- KnowledgeGraphManager.loadGraph of src/index.ts.  The argument is the
backing file: `none` when the file does not exist (the ENOENT branch, an
empty graph), otherwise its parsed lines.  A file with no non-blank line is
an empty graph; otherwise the first record must pass the marker test and the
remaining records are folded into the graph in file order. -/
def loadGraph (file : Option (List Line)) : Except StoreError KnowledgeGraph :=
  match file with
  | none => .ok { entities := [], relations := [] }
  | some ls =>
    match nonBlank ls with
    | [] => .ok { entities := [], relations := [] }
    | first :: rest =>
      if lacksMarker first then .error .markerError
      else .ok (rest.foldl insertItem { entities := [], relations := [] })

/-- Serialization of an entity for saveGraph: the spread
of the entity after a type field, so the key order is type, name,
entityType, observations. -/
def entityToJval (e : Entity) : Jval :=
  .obj [("type", .str "entity"), ("name", .str e.name),
        ("entityType", .str e.entityType),
        ("observations", .arr (e.observations.map .str))]

/-- Serialization of a relation for saveGraph: key order type, from, to,
relationType. -/
def relationToJval (r : Relation) : Jval :=
  .obj [("type", .str "relation"), ("from", .str r.«from»),
        ("to", .str r.«to»), ("relationType", .str r.relationType)]

/-- The records KnowledgeGraphManager.saveGraph writes, in order: the safety
marker, then every entity, then every relation. -/
def saveRecords (g : KnowledgeGraph) : List Jval :=
  markerJval :: (g.entities.map entityToJval ++ g.relations.map relationToJval)

/-- The whole saved file: one record per line, no blank lines (the lines are
joined with single newlines). -/
def saveFile (g : KnowledgeGraph) : List Line :=
  (saveRecords g).map Line.content

/-- KnowledgeGraphManager.createEntities, at the level of the loaded graph:
keep only the input entities whose name does not occur among the entities
already in the graph, append those, and return them. -/
def createEntities (g : KnowledgeGraph) (entities : List Entity) :
    KnowledgeGraph × List Entity :=
  let newEntities := entities.filter
    (fun e => ! g.entities.any (fun existingEntity => existingEntity.name == e.name))
  ({ g with entities := g.entities ++ newEntities }, newEntities)

/-- KnowledgeGraphManager.createRelations: keep only the input relations
whose full triple does not occur in the graph, append those, return them. -/
def createRelations (g : KnowledgeGraph) (relations : List Relation) :
    KnowledgeGraph × List Relation :=
  let newRelations := relations.filter
    (fun r => ! g.relations.any (fun existingRelation =>
      existingRelation.«from» == r.«from» &&
      existingRelation.«to» == r.«to» &&
      existingRelation.relationType == r.relationType))
  ({ g with relations := g.relations ++ newRelations }, newRelations)

/-- One observation batch entry of addObservations. -/
structure ObsInput where
  entityName : String
  contents : List String
deriving Repr, DecidableEq

/-- One result entry of addObservations. -/
structure ObsResult where
  entityName : String
  addedObservations : List String
deriving Repr, DecidableEq

/-- The body of one iteration of the map of addObservations, acting on the
entity list: find the first entity with the given name (the reference
`graph.entities.find(...)` mutates in place), append the contents not
already among its observations, return the updated list and what was added;
`none` when no entity carries the name. -/
def addToEntity (o : ObsInput) : List Entity → Option (List Entity × List String)
  | [] => none
  | e :: es =>
    if e.name == o.entityName then
      let newObservations := o.contents.filter
        (fun content => ! e.observations.contains content)
      some ({ e with observations := e.observations ++ newObservations } :: es,
            newObservations)
    else
      (addToEntity o es).map (fun p => (e :: p.1, p.2))

/-- The `observations.map(...)` of addObservations: process the batch in
order, threading the mutated entity list; the first entry naming a missing
entity throws, aborting the map before any later entry runs. -/
def addObsLoop (ents : List Entity) :
    List ObsInput → Except StoreError (List Entity × List ObsResult)
  | [] => .ok (ents, [])
  | o :: os =>
    match addToEntity o ents with
    | none => .error (.entityNotFound o.entityName)
    | some (ents1, added) =>
      (addObsLoop ents1 os).map
        (fun p => (p.1, { entityName := o.entityName,
                          addedObservations := added } :: p.2))

/-- KnowledgeGraphManager.addObservations, at the level of the backing file:
load, run the batch, and only when the whole batch succeeded write the file
back; a throw from loadGraph or from the map propagates before
`fs.writeFile` runs, so the file is returned unchanged beside the error. -/
def addObservations (file : Option (List Line)) (batch : List ObsInput) :
    Option (List Line) × Except StoreError (List ObsResult) :=
  match loadGraph file with
  | .error e => (file, .error e)
  | .ok g =>
    match addObsLoop g.entities batch with
    | .error e => (file, .error e)
    | .ok (ents, results) =>
      (some (saveFile { g with entities := ents }), .ok results)

/-- KnowledgeGraphManager.deleteEntities: drop every entity whose name is in
the list and every relation one of whose endpoints is in the list. -/
def deleteEntities (g : KnowledgeGraph) (entityNames : List String) :
    KnowledgeGraph :=
  { entities := g.entities.filter (fun e => ! entityNames.contains e.name)
    relations := g.relations.filter
      (fun r => ! entityNames.contains r.«from» && ! entityNames.contains r.«to») }

/-- KnowledgeGraphManager.deleteObservations: for each entry whose entity
exists, drop the listed observation strings; missing entities are skipped. -/
def removeObs (d : String × List String) (e : Entity) : Entity :=
  if e.name == d.1
  then { e with observations := e.observations.filter (fun o => ! d.2.contains o) }
  else e

/-- KnowledgeGraphManager.deleteObservations, continued: fold the deletion
entries over the entity list. -/
def deleteObservations (g : KnowledgeGraph)
    (deletions : List (String × List String)) : KnowledgeGraph :=
  { g with entities := deletions.foldl (fun ents d => ents.map (removeObs d)) g.entities }

/-- KnowledgeGraphManager.deleteRelations: drop every stored relation that
matches some input relation on all three fields. -/
def deleteRelations (g : KnowledgeGraph) (relations : List Relation) :
    KnowledgeGraph :=
  { g with relations := g.relations.filter (fun r => ! relations.any
      (fun delRelation =>
        r.«from» == delRelation.«from» &&
        r.«to» == delRelation.«to» &&
        r.relationType == delRelation.relationType)) }

/-- KnowledgeGraphManager.readGraph: returns the loaded graph unchanged. -/
def readGraph (g : KnowledgeGraph) : KnowledgeGraph := g

/-- JavaScript `s.includes(pat)` on the underlying character sequences:
true when pat occurs contiguously inside s. -/
def containsSeq (pat : List Char) : List Char → Bool
  | [] => pat.isEmpty
  | c :: cs => pat.isPrefixOf (c :: cs) || containsSeq pat cs

/-- `s.toLowerCase().includes(q.toLowerCase())` of searchNodes. -/
def lowerIncludes (s q : String) : Bool :=
  containsSeq q.toLower.toList s.toLower.toList

/-- The entity filter of searchNodes: the query case-insensitively occurs in
the name, the type, or some observation. -/
def entityMatches (query : String) (e : Entity) : Bool :=
  lowerIncludes e.name query ||
  lowerIncludes e.entityType query ||
  e.observations.any (fun o => lowerIncludes o query)

/-- KnowledgeGraphManager.searchNodes: filter the entities by the query,
then keep only the relations whose two endpoints are names of kept entities
(the Set of kept names, here the list of kept names). -/
def searchNodes (g : KnowledgeGraph) (query : String) : KnowledgeGraph :=
  let filteredEntities := g.entities.filter (entityMatches query)
  let filteredEntityNames := filteredEntities.map Entity.name
  { entities := filteredEntities
    relations := g.relations.filter (fun r =>
      filteredEntityNames.contains r.«from» &&
      filteredEntityNames.contains r.«to») }

/-- KnowledgeGraphManager.openNodes: exact-name filter with the same
relation restriction as searchNodes. -/
def openNodes (g : KnowledgeGraph) (names : List String) : KnowledgeGraph :=
  let filteredEntities := g.entities.filter (fun e => names.contains e.name)
  let filteredEntityNames := filteredEntities.map Entity.name
  { entities := filteredEntities
    relations := g.relations.filter (fun r =>
      filteredEntityNames.contains r.«from» &&
      filteredEntityNames.contains r.«to») }

/-- The filesystem as seen through existsSync.  An absolute path is its
list of segments from the root (the root itself is the empty list);
`path.join` appends a segment, `path.dirname` drops the last one, and the
dirname of the root is the root.  The function tells which paths exist. -/
def FileSys := List String → Bool

/-- The fixed marker list of findProjectRoot, in source order. -/
def projectMarkers : List String :=
  [".aim", ".git", "package.json", "pyproject.toml", "Cargo.toml", "go.mod"]

/-- The loop of findProjectRoot: at most five directories are examined,
walking upward from the start; a directory containing any marker wins, and
reaching the filesystem root stops the walk. -/
def findFrom (fs : FileSys) : Nat → List String → Option (List String)
  | 0, _ => none
  | fuel + 1, currentDir =>
    if projectMarkers.any (fun marker => fs (currentDir ++ [marker])) then
      some currentDir
    else
      let parentDir := currentDir.dropLast
      if parentDir = currentDir then none
      else findFrom fs fuel parentDir

/-- findProjectRoot of src/index.ts, with maxDepth 5, starting at the
current working directory. -/
def findProjectRoot (fs : FileSys) (startDir : List String) :
    Option (List String) :=
  findFrom fs 5 startDir

/-- The optional explicit location override. -/
inductive Location where
  | project
  | globalDir
deriving Repr, DecidableEq

/-- The filename line of getMemoryFilePath: memory-(context).jsonl when a
context is given, memory.jsonl otherwise. -/
def memoryFilename (context : Option String) : String :=
  match context with
  | some c => "memory-" ++ c ++ ".jsonl"
  | none => "memory.jsonl"

/-- getMemoryFilePath of src/index.ts: the filename from the context, then
the directory by explicit override or auto-detection; only the explicit
project override can fail. -/
def getMemoryFilePath (fs : FileSys) (baseMemoryPath cwd : List String)
    (context : Option String) (location : Option Location) :
    Except String (List String) :=
  let filename := memoryFilename context
  match location with
  | some .globalDir => .ok (baseMemoryPath ++ [filename])
  | some .project =>
    match findProjectRoot fs cwd with
    | some projectRoot => .ok (projectRoot ++ [".aim", filename])
    | none => .error "No project detected - cannot use project location"
  | none =>
    match findProjectRoot fs cwd with
    | some projectRoot =>
      if fs (projectRoot ++ [".aim"]) then .ok (projectRoot ++ [".aim", filename])
      else .ok (baseMemoryPath ++ [filename])
    | none => .ok (baseMemoryPath ++ [filename])

/-- The specification reading of the search match: the query is a
case-insensitive substring of the subject string, stated structurally as an
occurrence of the folded query inside the folded subject. -/
def SpecSubstring (q s : String) : Prop :=
  ∃ pre post, s.toLower.toList = pre ++ q.toLower.toList ++ post

/-- The specification reading of the entity filter of searchNodes: the query
occurs case-insensitively in the name, in the type, or in at least one
observation. -/
def SpecMatch (q : String) (e : Entity) : Prop :=
  SpecSubstring q e.name ∨ SpecSubstring q e.entityType ∨
    ∃ o ∈ e.observations, SpecSubstring q o

/-- Deserializing a serialized entity gives the entity back. -/
theorem jvalToEntity_entityToJval (e : Entity) : jvalToEntity (entityToJval e) = e := by
  cases e with
  | mk name entityType observations =>
    simp only [jvalToEntity, entityToJval, getStr, getStrList, Jval.getField,
      List.lookup, List.map_map]
    induction observations with
    | nil => rfl
    | cons o os ih => simp_all

/-- Deserializing a serialized relation gives the relation back. -/
theorem jvalToRelation_relationToJval (r : Relation) :
    jvalToRelation (relationToJval r) = r := by
  cases r with
  | mk f t ty => rfl

/-- A serialized entity record carries type "entity". -/
theorem typeIs_entityToJval (e : Entity) : typeIs (entityToJval e) "entity" = true := rfl

/-- A serialized entity record does not carry type "relation". -/
theorem typeIs_entityToJval_not_relation (e : Entity) :
    typeIs (entityToJval e) "relation" = false := rfl

/-- A serialized relation record carries type "relation". -/
theorem typeIs_relationToJval (r : Relation) :
    typeIs (relationToJval r) "relation" = true := rfl

/-- A serialized relation record does not carry type "entity". -/
theorem typeIs_relationToJval_not_entity (r : Relation) :
    typeIs (relationToJval r) "entity" = false := rfl

/-- The marker record passes the marker test. -/
theorem lacksMarker_markerJval : lacksMarker markerJval = false := rfl

/-- The saved file has no blank lines: its non-blank lines are its records. -/
theorem nonBlank_saveFile (g : KnowledgeGraph) :
    nonBlank (saveFile g) = saveRecords g := by
  rw [saveFile]
  induction saveRecords g with
  | nil => rfl
  | cons j js ih => simp_all [nonBlank]

/-- The reduce loop of loadGraph, characterized: the accumulated graph grows
by the decoded records of type "entity" and of type "relation", in order. -/
theorem foldl_insertItem (items : List Jval) (acc : KnowledgeGraph) :
    items.foldl insertItem acc =
      { entities := acc.entities ++
          (items.filter (fun j => typeIs j "entity")).map jvalToEntity,
        relations := acc.relations ++
          (items.filter (fun j => typeIs j "relation")).map jvalToRelation } := by
  induction items generalizing acc with
  | nil => simp
  | cons j items ih =>
    cases h1 : typeIs j "entity" <;> cases h2 : typeIs j "relation" <;>
      simp [insertItem, h1, h2, ih, List.filter_cons]

/-- C4 (confirmed): saving any knowledge graph and loading the result back
yields the very same graph, hence the same entity set and the same relation
set, whatever the insertion order of entities, relations and observations
was. -/
theorem saveGraph_loadGraph_roundtrip (g : KnowledgeGraph) :
    ∃ g2, loadGraph (some (saveFile g)) = Except.ok g2 ∧ g2 = g ∧
      (∀ e, e ∈ g2.entities ↔ e ∈ g.entities) ∧
      (∀ r, r ∈ g2.relations ↔ r ∈ g.relations) := by
  refine ⟨g, ?_, rfl, fun _ => Iff.rfl, fun _ => Iff.rfl⟩
  have h1 : nonBlank (saveFile g) = markerJval ::
      (g.entities.map entityToJval ++ g.relations.map relationToJval) :=
    nonBlank_saveFile g
  rw [loadGraph, h1]
  simp only [lacksMarker_markerJval, Bool.false_eq_true, if_false]
  rw [foldl_insertItem]
  have ha : (g.entities.map entityToJval).filter (fun j => typeIs j "entity") =
      g.entities.map entityToJval := by
    rw [List.filter_eq_self]
    intro a hmem
    obtain ⟨e, _, rfl⟩ := List.mem_map.mp hmem
    exact typeIs_entityToJval e
  have hb : (g.relations.map relationToJval).filter (fun j => typeIs j "entity") =
      [] := by
    rw [List.filter_eq_nil_iff]
    intro a hmem
    obtain ⟨r, _, rfl⟩ := List.mem_map.mp hmem
    simp [typeIs_relationToJval_not_entity]
  have hc : (g.entities.map entityToJval).filter (fun j => typeIs j "relation") =
      [] := by
    rw [List.filter_eq_nil_iff]
    intro a hmem
    obtain ⟨e, _, rfl⟩ := List.mem_map.mp hmem
    simp [typeIs_entityToJval_not_relation]
  have hd : (g.relations.map relationToJval).filter (fun j => typeIs j "relation") =
      g.relations.map relationToJval := by
    rw [List.filter_eq_self]
    intro a hmem
    obtain ⟨r, _, rfl⟩ := List.mem_map.mp hmem
    exact typeIs_relationToJval r
  have hmape : g.entities.map (jvalToEntity ∘ entityToJval) = g.entities := by
    induction g.entities with
    | nil => rfl
    | cons e es ih => simp_all [jvalToEntity_entityToJval]
  have hmapr : g.relations.map (jvalToRelation ∘ relationToJval) = g.relations := by
    induction g.relations with
    | nil => rfl
    | cons r rs ih => simp_all [jvalToRelation_relationToJval]
  simp only [List.filter_append, ha, hb, hc, hd, List.append_nil, List.nil_append,
    List.map_map, hmape, hmapr]

/-- The marker test passes exactly when the first record carries the string
"_aim" in its type field and the string "mcp-knowledge-graph" in its source
field; no other part of the record is examined. -/
theorem lacksMarker_eq_false_iff (j : Jval) :
    lacksMarker j = false ↔
      (j.getField "type" = some (Jval.str "_aim") ∧
       j.getField "source" = some (Jval.str "mcp-knowledge-graph")) := by
  unfold lacksMarker
  rcases h1 : j.getField "type" with _ | (s1 | n1 | l1 | f1) <;>
    rcases h2 : j.getField "source" with _ | (s2 | n2 | l2 | f2) <;>
      simp [h1, h2]

/-- C1 (corrected, counterexample): a first record that carries the two
marker fields with their required values but also an extra field is not
deep-equal to the marker record, yet loadGraph accepts it and reads the
graph. -/
theorem loadGraph_marker_extra_fields_accepted :
    loadGraph (some [Line.content (Jval.obj
      [("type", Jval.str "_aim"), ("source", Jval.str "mcp-knowledge-graph"),
       ("extra", Jval.str "surprise")])]) =
      Except.ok { entities := [], relations := [] } ∧
    Jval.getField (Jval.obj
      [("type", Jval.str "_aim"), ("source", Jval.str "mcp-knowledge-graph"),
       ("extra", Jval.str "surprise")]) "extra" = some (Jval.str "surprise") ∧
    Jval.getField markerJval "extra" = none :=
  ⟨rfl, rfl, rfl⟩

/-- C1 (amended): for a backing file with at least one non-blank record,
loading fails exactly when the first record's type field is not the string
"_aim" or its source field is not the string "mcp-knowledge-graph"; the only
possible load failure is the safety-marker integrity error, and fields of
the first record beyond these two are never examined. -/
theorem loadGraph_marker_field_check (ls : List Line) (first : Jval)
    (rest : List Jval) (h : nonBlank ls = first :: rest) :
    ((∃ err, loadGraph (some ls) = Except.error err) ↔
      ¬ (first.getField "type" = some (Jval.str "_aim") ∧
         first.getField "source" = some (Jval.str "mcp-knowledge-graph"))) ∧
    (∀ err, loadGraph (some ls) = Except.error err →
      err = StoreError.markerError) := by
  have hu : loadGraph (some ls) =
      if lacksMarker first then Except.error StoreError.markerError
      else Except.ok (rest.foldl insertItem { entities := [], relations := [] }) := by
    rw [loadGraph, h]
  cases hm : lacksMarker first with
  | false =>
    rw [hu]
    simp only [hm, Bool.false_eq_true, if_false]
    constructor
    · constructor
      · rintro ⟨err, herr⟩; cases herr
      · intro hne; exact absurd (lacksMarker_eq_false_iff first |>.mp hm) hne
    · intro err herr; cases herr
  | true =>
    rw [hu]
    simp only [hm, if_true]
    constructor
    · constructor
      · intro _ hfields
        have : lacksMarker first = false := lacksMarker_eq_false_iff first |>.mpr hfields
        rw [this] at hm; cases hm
      · intro _; exact ⟨StoreError.markerError, rfl⟩
    · intro err herr
      cases herr; rfl

/-- Witness for the amended C1 theorem at a foreign one-record file. -/
theorem loadGraph_marker_field_check_witness :
    nonBlank [Line.content (Jval.obj [("foo", Jval.str "bar")])] =
      [Jval.obj [("foo", Jval.str "bar")]] ∧
    (((∃ err, loadGraph (some [Line.content (Jval.obj [("foo", Jval.str "bar")])]) =
        Except.error err) ↔
      ¬ ((Jval.obj [("foo", Jval.str "bar")]).getField "type" = some (Jval.str "_aim") ∧
         (Jval.obj [("foo", Jval.str "bar")]).getField "source" =
           some (Jval.str "mcp-knowledge-graph"))) ∧
    (∀ err, loadGraph (some [Line.content (Jval.obj [("foo", Jval.str "bar")])]) =
        Except.error err → err = StoreError.markerError)) :=
  ⟨rfl, loadGraph_marker_field_check _ _ _ rfl⟩

/-- C9 (confirmed): after a passing marker line, exactly the records of type
"entity" populate the entity collection and exactly those of type "relation"
populate the relation collection, so a record of any other type reaches
neither; and the next save writes only the marker followed by entity and
relation records, so such a record, unless it happens to coincide with the
marker record itself, does not appear in the rewritten file. -/
theorem loadGraph_drops_unknown_record_types (ls : List Line) (first : Jval)
    (rest : List Jval) (g : KnowledgeGraph)
    (h1 : nonBlank ls = first :: rest)
    (h2 : loadGraph (some ls) = Except.ok g) :
    g.entities = (rest.filter (fun j => typeIs j "entity")).map jvalToEntity ∧
    g.relations = (rest.filter (fun j => typeIs j "relation")).map jvalToRelation ∧
    (∀ j, typeIs j "entity" = false → typeIs j "relation" = false →
      j ≠ markerJval → j ∉ saveRecords g) := by
  have hu : loadGraph (some ls) =
      if lacksMarker first then Except.error StoreError.markerError
      else Except.ok (rest.foldl insertItem { entities := [], relations := [] }) := by
    rw [loadGraph, h1]
  cases hm : lacksMarker first with
  | true => rw [hu] at h2; simp only [hm, if_true] at h2; cases h2
  | false =>
    rw [hu] at h2
    simp only [hm, Bool.false_eq_true, if_false, Except.ok.injEq] at h2
    rw [foldl_insertItem] at h2
    subst h2
    refine ⟨by simp, by simp, ?_⟩
    intro j hje hjr hjm hmem
    rw [saveRecords] at hmem
    simp only [List.mem_cons, List.mem_append] at hmem
    rcases hmem with hmem | hmem | hmem
    · exact hjm hmem
    · obtain ⟨e, _, rfl⟩ := List.mem_map.mp hmem
      rw [typeIs_entityToJval e] at hje; cases hje
    · obtain ⟨r, _, rfl⟩ := List.mem_map.mp hmem
      rw [typeIs_relationToJval r] at hjr; cases hjr

/-- Witness for C9: a file holding the marker, a record of type "note" and
one entity; the note record reaches neither collection and is not among the
records of the next save. -/
theorem loadGraph_drops_unknown_record_types_witness :
    nonBlank [Line.content markerJval,
      Line.content (Jval.obj [("type", Jval.str "note"), ("text", Jval.str "hi")]),
      Line.content (entityToJval { name := "A", entityType := "t", observations := [] })] =
      [markerJval,
       Jval.obj [("type", Jval.str "note"), ("text", Jval.str "hi")],
       entityToJval { name := "A", entityType := "t", observations := [] }] ∧
    loadGraph (some [Line.content markerJval,
      Line.content (Jval.obj [("type", Jval.str "note"), ("text", Jval.str "hi")]),
      Line.content (entityToJval { name := "A", entityType := "t", observations := [] })]) =
      Except.ok { entities := [{ name := "A", entityType := "t", observations := [] }],
                  relations := [] } ∧
    ({ entities := [{ name := "A", entityType := "t", observations := [] }],
       relations := [] } : KnowledgeGraph).entities =
      (([Jval.obj [("type", Jval.str "note"), ("text", Jval.str "hi")],
         entityToJval { name := "A", entityType := "t", observations := [] }].filter
          (fun j => typeIs j "entity")).map jvalToEntity) ∧
    (Jval.obj [("type", Jval.str "note"), ("text", Jval.str "hi")]) ∉
      saveRecords { entities := [{ name := "A", entityType := "t", observations := [] }],
                    relations := [] } := by
  refine ⟨rfl, rfl, rfl, ?_⟩
  exact (loadGraph_drops_unknown_record_types
    [Line.content markerJval,
      Line.content (Jval.obj [("type", Jval.str "note"), ("text", Jval.str "hi")]),
      Line.content (entityToJval { name := "A", entityType := "t", observations := [] })]
    markerJval
    [Jval.obj [("type", Jval.str "note"), ("text", Jval.str "hi")],
      entityToJval { name := "A", entityType := "t", observations := [] }]
    { entities := [{ name := "A", entityType := "t", observations := [] }],
      relations := [] }
    rfl rfl).2.2
    (Jval.obj [("type", Jval.str "note"), ("text", Jval.str "hi")])
    rfl rfl (by simp [markerJval])

/-- C2 (corrected, counterexample): a batch holding two entities that share
one name, run against the empty graph, makes both pass the filter (the
filter only checks names already stored), so the graph ends up with two
entities named "A" and both are returned. -/
theorem createEntities_duplicate_batch_breaks_uniqueness :
    (createEntities { entities := [], relations := [] }
      [{ name := "A", entityType := "t", observations := [] },
       { name := "A", entityType := "u", observations := [] }]).1.entities =
      [{ name := "A", entityType := "t", observations := [] },
       { name := "A", entityType := "u", observations := [] }] ∧
    ¬ (((createEntities { entities := [], relations := [] }
      [{ name := "A", entityType := "t", observations := [] },
       { name := "A", entityType := "u", observations := [] }]).1.entities.map
        Entity.name).Nodup) := by
  refine ⟨rfl, ?_⟩
  decide

/-- C2 (amended): createEntities returns exactly the input entities whose
name is not already stored, appends them, and touches nothing else; when the
stored names are unique AND the batch itself carries no repeated name, the
resulting names are unique.  A batch repeating a name inserts every copy
whose name was free, so in-batch duplication breaks uniqueness. -/
theorem createEntities_unique_names_preserved (g : KnowledgeGraph)
    (batch : List Entity)
    (hg : (g.entities.map Entity.name).Nodup)
    (hb : (batch.map Entity.name).Nodup) :
    ((createEntities g batch).1.entities.map Entity.name).Nodup ∧
    (∀ e, e ∈ (createEntities g batch).2 ↔
      e ∈ batch ∧ ∀ ex ∈ g.entities, ex.name ≠ e.name) ∧
    (createEntities g batch).1.entities = g.entities ++ (createEntities g batch).2 ∧
    (createEntities g batch).1.relations = g.relations := by
  have hmem : ∀ e, e ∈ (createEntities g batch).2 ↔
      e ∈ batch ∧ ∀ ex ∈ g.entities, ex.name ≠ e.name := by
    intro e
    simp only [createEntities, List.mem_filter, Bool.not_eq_true']
    constructor
    · rintro ⟨hin, hflt⟩
      refine ⟨hin, fun ex hex => ?_⟩
      intro heq
      have : g.entities.any (fun ex2 => ex2.name == e.name) = true :=
        List.any_eq_true.mpr ⟨ex, hex, by simp [heq]⟩
      rw [this] at hflt; cases hflt
    · rintro ⟨hin, hnames⟩
      refine ⟨hin, ?_⟩
      rw [Bool.eq_false_iff]
      intro hany
      obtain ⟨ex, hex, hbeq⟩ := List.any_eq_true.mp hany
      exact hnames ex hex (by simpa using hbeq)
  refine ⟨?_, hmem, rfl, rfl⟩
  simp only [createEntities, List.map_append]
  apply List.Nodup.append hg
  · exact ((List.filter_sublist batch).map Entity.name).nodup hb
  · intro n hn1 hn2
    obtain ⟨ex, hex, rfl⟩ := List.mem_map.mp hn1
    obtain ⟨e, he, hname⟩ := List.mem_map.mp hn2
    have := (hmem e).mp (by simpa [createEntities] using he)
    exact this.2 ex hex hname.symm

/-- Witness for the amended C2 theorem: a stored entity named "A" and a
batch offering a fresh "A" and a new "B"; only "B" is created. -/
theorem createEntities_unique_names_preserved_witness :
    ((([{ name := "A", entityType := "t", observations := [] }] :
        List Entity).map Entity.name).Nodup ∧
     (([{ name := "A", entityType := "x", observations := [] },
        { name := "B", entityType := "u", observations := [] }] :
        List Entity).map Entity.name).Nodup) ∧
    (((createEntities
        { entities := [{ name := "A", entityType := "t", observations := [] }],
          relations := [] }
        [{ name := "A", entityType := "x", observations := [] },
         { name := "B", entityType := "u", observations := [] }]).1.entities.map
          Entity.name).Nodup ∧
     (∀ e, e ∈ (createEntities
        { entities := [{ name := "A", entityType := "t", observations := [] }],
          relations := [] }
        [{ name := "A", entityType := "x", observations := [] },
         { name := "B", entityType := "u", observations := [] }]).2 ↔
        e ∈ [{ name := "A", entityType := "x", observations := [] },
             { name := "B", entityType := "u", observations := [] }] ∧
        ∀ ex ∈ [{ name := "A", entityType := "t", observations := [] }],
          Entity.name ex ≠ e.name) ∧
     (createEntities
        { entities := [{ name := "A", entityType := "t", observations := [] }],
          relations := [] }
        [{ name := "A", entityType := "x", observations := [] },
         { name := "B", entityType := "u", observations := [] }]).1.entities =
       [{ name := "A", entityType := "t", observations := [] }] ++
         (createEntities
        { entities := [{ name := "A", entityType := "t", observations := [] }],
          relations := [] }
        [{ name := "A", entityType := "x", observations := [] },
         { name := "B", entityType := "u", observations := [] }]).2 ∧
     (createEntities
        { entities := [{ name := "A", entityType := "t", observations := [] }],
          relations := [] }
        [{ name := "A", entityType := "x", observations := [] },
         { name := "B", entityType := "u", observations := [] }]).1.relations = []) :=
  ⟨⟨by decide, by decide⟩,
    createEntities_unique_names_preserved
      { entities := [{ name := "A", entityType := "t", observations := [] }],
        relations := [] }
      [{ name := "A", entityType := "x", observations := [] },
       { name := "B", entityType := "u", observations := [] }]
      (by decide) (by decide)⟩

/-- addToEntity misses exactly when no stored entity carries the name. -/
theorem addToEntity_eq_none_iff (o : ObsInput) (ents : List Entity) :
    addToEntity o ents = none ↔ o.entityName ∉ ents.map Entity.name := by
  induction ents with
  | nil => simp [addToEntity]
  | cons e es ih =>
    by_cases h : e.name = o.entityName
    · simp [addToEntity, h]
    · have hb : (e.name == o.entityName) = false := by simp [h]
      cases hrec : addToEntity o es with
      | none =>
        have hnot := ih.mp hrec
        simp [addToEntity, hb, hrec, hnot, Ne.symm h]
      | some p =>
        have hmem : o.entityName ∈ es.map Entity.name := by
          by_contra hno
          rw [← ih] at hno
          rw [hrec] at hno
          cases hno
        simp [addToEntity, hb, hrec, hmem]

/-- addToEntity only changes observation lists: the stored names survive. -/
theorem addToEntity_names (o : ObsInput) (ents ents1 : List Entity)
    (added : List String) (h : addToEntity o ents = some (ents1, added)) :
    ents1.map Entity.name = ents.map Entity.name := by
  induction ents generalizing ents1 with
  | nil => cases h
  | cons e es ih =>
    by_cases hn : e.name = o.entityName
    · have hb : (e.name == o.entityName) = true := by simp [hn]
      simp only [addToEntity, hb, if_true, Option.some.injEq, Prod.mk.injEq] at h
      rw [← h.1]
      simp
    · have hb : (e.name == o.entityName) = false := by simp [hn]
      simp only [addToEntity, hb, Bool.false_eq_true, if_false] at h
      cases hrec : addToEntity o es with
      | none => rw [hrec] at h; cases h
      | some p =>
        rw [hrec] at h
        simp only [Option.map_some', Option.some.injEq, Prod.mk.injEq] at h
        rw [← h.1]
        have hih := ih p.1 (by rw [hrec, ← h.2])
        simp [hih]

/-- A batch entry naming a missing entity makes the whole map of
addObservations throw that entry's not-found error, whatever came before. -/
theorem addObsLoop_missing (batch : List ObsInput) (ents : List Entity)
    (hmiss : ∃ o ∈ batch, o.entityName ∉ ents.map Entity.name) :
    ∃ o ∈ batch, o.entityName ∉ ents.map Entity.name ∧
      addObsLoop ents batch =
        Except.error (StoreError.entityNotFound o.entityName) := by
  induction batch generalizing ents with
  | nil =>
    obtain ⟨o, ho, _⟩ := hmiss
    cases ho
  | cons o os ih =>
    cases hstep : addToEntity o ents with
    | none =>
      refine ⟨o, List.mem_cons_self o os, ?_, ?_⟩
      · exact (addToEntity_eq_none_iff o ents).mp hstep
      · simp [addObsLoop, hstep]
    | some p =>
      obtain ⟨o1, ho1, habs⟩ := hmiss
      have honame : o.entityName ∈ ents.map Entity.name := by
        by_contra hno
        rw [← addToEntity_eq_none_iff o ents] at hno
        rw [hstep] at hno
        cases hno
      have ho1os : o1 ∈ os := by
        rcases List.mem_cons.mp ho1 with heq | hmem
        · subst heq; exact absurd honame habs
        · exact hmem
      have hnames := addToEntity_names o ents p.1 p.2 (by rw [hstep])
      obtain ⟨o2, ho2, habs2, herr⟩ := ih p.1 ⟨o1, ho1os, by rw [hnames]; exact habs⟩
      refine ⟨o2, List.mem_cons_of_mem o ho2, by rw [← hnames]; exact habs2, ?_⟩
      simp [addObsLoop, hstep, herr, Except.map]

/-- C3 (confirmed): when some entry of the batch names an entity absent from
the loaded graph, addObservations fails with the not-found error naming a
missing entity of the batch and hands back the backing file unchanged: the
throw happens inside the map, before the save, whatever earlier entries had
already been processed in memory. -/
theorem addObservations_missing_entity_fails_whole_batch
    (file : Option (List Line)) (batch : List ObsInput) (g : KnowledgeGraph)
    (hload : loadGraph file = Except.ok g)
    (hmiss : ∃ o ∈ batch, o.entityName ∉ g.entities.map Entity.name) :
    ∃ o ∈ batch, o.entityName ∉ g.entities.map Entity.name ∧
      addObservations file batch =
        (file, Except.error (StoreError.entityNotFound o.entityName)) := by
  obtain ⟨o, ho, habs, herr⟩ := addObsLoop_missing batch g.entities hmiss
  refine ⟨o, ho, habs, ?_⟩
  have h1 : addObservations file batch =
      match addObsLoop g.entities batch with
      | .error e => (file, .error e)
      | .ok (ents, results) =>
        (some (saveFile { g with entities := ents }), .ok results) := by
    rw [addObservations, hload]
  rw [h1, herr]

/-- Witness for C3: a stored graph holding only "A"; a batch adding to "A"
then to the missing "B" fails naming "B" and leaves the file alone. -/
theorem addObservations_missing_entity_fails_whole_batch_witness :
    loadGraph (some (saveFile
      { entities := [{ name := "A", entityType := "t", observations := [] }],
        relations := [] })) =
      Except.ok { entities := [{ name := "A", entityType := "t", observations := [] }],
                  relations := [] } ∧
    (∃ o ∈ [({ entityName := "A", contents := ["x"] } : ObsInput),
            { entityName := "B", contents := ["y"] }],
      o.entityName ∉ [({ name := "A", entityType := "t", observations := [] } :
        Entity)].map Entity.name) ∧
    (∃ o ∈ [({ entityName := "A", contents := ["x"] } : ObsInput),
            { entityName := "B", contents := ["y"] }],
      o.entityName ∉ [({ name := "A", entityType := "t", observations := [] } :
        Entity)].map Entity.name ∧
      addObservations (some (saveFile
        { entities := [{ name := "A", entityType := "t", observations := [] }],
          relations := [] }))
        [{ entityName := "A", contents := ["x"] },
         { entityName := "B", contents := ["y"] }] =
        (some (saveFile
          { entities := [{ name := "A", entityType := "t", observations := [] }],
            relations := [] }),
         Except.error (StoreError.entityNotFound o.entityName))) := by
  refine ⟨rfl, ⟨{ entityName := "B", contents := ["y"] }, by decide, by decide⟩, ?_⟩
  exact addObservations_missing_entity_fails_whole_batch
    (some (saveFile
      { entities := [{ name := "A", entityType := "t", observations := [] }],
        relations := [] }))
    [{ entityName := "A", contents := ["x"] },
     { entityName := "B", contents := ["y"] }]
    { entities := [{ name := "A", entityType := "t", observations := [] }],
      relations := [] }
    rfl
    ⟨{ entityName := "B", contents := ["y"] }, by decide, by decide⟩

/-- The membership test of JavaScript Array.includes on strings. -/
theorem mem_iff_contains (a : String) (l : List String) :
    l.contains a = true ↔ a ∈ l := List.elem_iff

/-- C5 (confirmed): when the upward search finds no project root, resolving
with the explicit project override fails with the no-project error, while
resolving with the location omitted succeeds and lands in the configured
global base directory; only the explicit override makes the missing project
fatal. -/
theorem project_location_asymmetry (fs : FileSys) (base cwd : List String)
    (context : Option String)
    (h : findProjectRoot fs cwd = none) :
    getMemoryFilePath fs base cwd context (some Location.project) =
      Except.error "No project detected - cannot use project location" ∧
    getMemoryFilePath fs base cwd context none =
      Except.ok (base ++ [memoryFilename context]) := by
  constructor
  · rw [getMemoryFilePath, h]
  · rw [getMemoryFilePath, h]

/-- Witness for C5 on the empty filesystem, where nothing exists and so no
marker is ever found. -/
theorem project_location_asymmetry_witness :
    findProjectRoot (fun _ => false) ["home", "user"] = none ∧
    (getMemoryFilePath (fun _ => false) ["base"] ["home", "user"]
        (some "work") (some Location.project) =
      Except.error "No project detected - cannot use project location" ∧
    getMemoryFilePath (fun _ => false) ["base"] ["home", "user"]
        (some "work") none =
      Except.ok (["base"] ++ [memoryFilename (some "work")])) :=
  ⟨rfl, project_location_asymmetry (fun _ => false) ["base"] ["home", "user"]
    (some "work") rfl⟩

/-- C6 (confirmed, under the non-aliasing proviso that the global base
directory is not itself the detected root's .aim directory): with location
omitted and a project root found, the resolved path is root/.aim/filename
exactly when the root's .aim directory exists on disk, and otherwise lies in
the configured global base directory; and the filename is
memory-(context).jsonl when a context is given and memory.jsonl when not. -/
theorem auto_detect_aim_precedence (fs : FileSys) (base cwd root : List String)
    (context : Option String)
    (h : findProjectRoot fs cwd = some root)
    (hbase : base ≠ root ++ [".aim"]) :
    (getMemoryFilePath fs base cwd context none =
        Except.ok (root ++ [".aim", memoryFilename context]) ↔
      fs (root ++ [".aim"]) = true) ∧
    (fs (root ++ [".aim"]) = false →
      getMemoryFilePath fs base cwd context none =
        Except.ok (base ++ [memoryFilename context])) ∧
    (∀ c, memoryFilename (some c) = "memory-" ++ c ++ ".jsonl") ∧
    memoryFilename none = "memory.jsonl" := by
  have hu : getMemoryFilePath fs base cwd context none =
      if fs (root ++ [".aim"])
      then Except.ok (root ++ [".aim", memoryFilename context])
      else Except.ok (base ++ [memoryFilename context]) := by
    rw [getMemoryFilePath, h]
  refine ⟨?_, ?_, fun c => rfl, rfl⟩
  · cases haim : fs (root ++ [".aim"]) with
    | true => simp [hu, haim]
    | false =>
      rw [hu]
      simp only [haim, Bool.false_eq_true, if_false]
      constructor
      · intro heq
        exfalso
        have hlists : base ++ [memoryFilename context] =
            root ++ [".aim", memoryFilename context] := by
          injection heq
        have hconcat : base ++ [memoryFilename context] =
            (root ++ [".aim"]) ++ [memoryFilename context] := by
          rw [hlists]; simp
        have hdrop := congrArg List.dropLast hconcat
        rw [List.dropLast_concat, List.dropLast_concat] at hdrop
        exact hbase hdrop
      · intro hcontr; cases hcontr
  · intro haim
    rw [hu]
    simp [haim]

/-- Witness for C6: a filesystem where the project root is marked by .git
and the .aim directory exists; the resolver picks it. -/
theorem auto_detect_aim_precedence_witness :
    findProjectRoot
        (fun p => p == ["home", "proj", ".git"] || p == ["home", "proj", ".aim"])
        ["home", "proj"] = some ["home", "proj"] ∧
    (["base"] : List String) ≠ ["home", "proj"] ++ [".aim"] ∧
    ((getMemoryFilePath
        (fun p => p == ["home", "proj", ".git"] || p == ["home", "proj", ".aim"])
        ["base"] ["home", "proj"] none none =
        Except.ok (["home", "proj"] ++ [".aim", memoryFilename none]) ↔
      (fun p => p == ["home", "proj", ".git"] || p == ["home", "proj", ".aim"])
        (["home", "proj"] ++ [".aim"]) = true) ∧
    ((fun p => p == ["home", "proj", ".git"] || p == ["home", "proj", ".aim"])
        (["home", "proj"] ++ [".aim"]) = false →
      getMemoryFilePath
        (fun p => p == ["home", "proj", ".git"] || p == ["home", "proj", ".aim"])
        ["base"] ["home", "proj"] none none =
        Except.ok (["base"] ++ [memoryFilename none])) ∧
    (∀ c, memoryFilename (some c) = "memory-" ++ c ++ ".jsonl") ∧
    memoryFilename none = "memory.jsonl") :=
  ⟨rfl, by decide,
    auto_detect_aim_precedence
      (fun p => p == ["home", "proj", ".git"] || p == ["home", "proj", ".aim"])
      ["base"] ["home", "proj"] ["home", "proj"] none rfl (by decide)⟩

/-- C7 (confirmed): deleteEntities keeps exactly the entities whose name is
not listed and exactly the relations touching no listed name, in their
original order, erroring on nothing; deleting A from the two-entity graph
with the relation A to B keeps B and drops the relation. -/
theorem deleteEntities_cascades (g : KnowledgeGraph) (names : List String) :
    (∀ e, e ∈ (deleteEntities g names).entities ↔
      e ∈ g.entities ∧ e.name ∉ names) ∧
    (∀ r, r ∈ (deleteEntities g names).relations ↔
      r ∈ g.relations ∧ r.«from» ∉ names ∧ r.«to» ∉ names) ∧
    deleteEntities
      { entities := [{ name := "A", entityType := "t", observations := [] },
                     { name := "B", entityType := "u", observations := [] }],
        relations := [{ «from» := "A", «to» := "B", relationType := "r" }] }
      ["A"] =
      { entities := [{ name := "B", entityType := "u", observations := [] }],
        relations := [] } := by
  refine ⟨?_, ?_, by decide⟩
  · intro e
    simp only [deleteEntities, List.mem_filter, Bool.not_eq_true']
    constructor
    · rintro ⟨h1, h2⟩
      exact ⟨h1, fun hmem => by
        rw [(mem_iff_contains _ _).mpr hmem] at h2; cases h2⟩
    · rintro ⟨h1, h2⟩
      refine ⟨h1, ?_⟩
      rw [Bool.eq_false_iff]
      intro hc
      exact h2 ((mem_iff_contains _ _).mp hc)
  · intro r
    simp only [deleteEntities, List.mem_filter, Bool.and_eq_true, Bool.not_eq_true']
    constructor
    · rintro ⟨h1, h2, h3⟩
      refine ⟨h1, ?_, ?_⟩
      · exact fun hmem => by
          rw [(mem_iff_contains _ _).mpr hmem] at h2; cases h2
      · exact fun hmem => by
          rw [(mem_iff_contains _ _).mpr hmem] at h3; cases h3
    · rintro ⟨h1, h2, h3⟩
      refine ⟨h1, ?_, ?_⟩
      · rw [Bool.eq_false_iff]
        intro hc
        exact h2 ((mem_iff_contains _ _).mp hc)
      · rw [Bool.eq_false_iff]
        intro hc
        exact h3 ((mem_iff_contains _ _).mp hc)

/-- containsSeq decides occurrence of one character sequence inside
another. -/
theorem containsSeq_iff (pat l : List Char) :
    containsSeq pat l = true ↔ ∃ pre post, l = pre ++ pat ++ post := by
  induction l with
  | nil =>
    simp only [containsSeq, List.isEmpty_iff]
    constructor
    · intro h
      exact ⟨[], [], by simp [h]⟩
    · rintro ⟨pre, post, hsplit⟩
      have h1 := List.append_eq_nil.mp hsplit.symm
      exact (List.append_eq_nil.mp h1.1).2
  | cons c cs ih =>
    simp only [containsSeq, Bool.or_eq_true]
    constructor
    · rintro (hpre | hrest)
      · obtain ⟨t, ht⟩ := List.isPrefixOf_iff_prefix.mp hpre
        exact ⟨[], t, by simp [← ht]⟩
      · obtain ⟨pre, post, hs⟩ := ih.mp hrest
        exact ⟨c :: pre, post, by simp [hs]⟩
    · rintro ⟨pre, post, hs⟩
      cases pre with
      | nil =>
        left
        apply List.isPrefixOf_iff_prefix.mpr
        exact ⟨post, by simpa using hs.symm⟩
      | cons p ps =>
        right
        apply ih.mpr
        refine ⟨ps, post, ?_⟩
        simp only [List.cons_append, List.cons.injEq] at hs
        exact hs.2

/-- The lowered-includes test of searchNodes agrees with the spec-side
case-insensitive-substring predicate. -/
theorem lowerIncludes_iff (s q : String) :
    lowerIncludes s q = true ↔ SpecSubstring q s := by
  rw [lowerIncludes, SpecSubstring, containsSeq_iff]

/-- The entity filter of searchNodes agrees with the spec-side match. -/
theorem entityMatches_iff (q : String) (e : Entity) :
    entityMatches q e = true ↔ SpecMatch q e := by
  rw [entityMatches, SpecMatch]
  simp only [Bool.or_eq_true, List.any_eq_true, lowerIncludes_iff]
  exact or_assoc

/-- C8 (confirmed): searchNodes returns exactly the entities on which the
query case-insensitively matches the name, the type or an observation, plus
exactly the stored relations whose two endpoints are names of returned
entities. -/
theorem searchNodes_characterization (g : KnowledgeGraph) (query : String) :
    (∀ e, e ∈ (searchNodes g query).entities ↔
      e ∈ g.entities ∧ SpecMatch query e) ∧
    (∀ r, r ∈ (searchNodes g query).relations ↔
      r ∈ g.relations ∧
      (∃ e ∈ (searchNodes g query).entities, e.name = r.«from») ∧
      (∃ e ∈ (searchNodes g query).entities, e.name = r.«to»)) := by
  constructor
  · intro e
    simp only [searchNodes, List.mem_filter, entityMatches_iff]
  · intro r
    simp only [searchNodes, List.mem_filter, Bool.and_eq_true]
    constructor
    · rintro ⟨h1, h2, h3⟩
      refine ⟨h1, ?_, ?_⟩
      · obtain ⟨e, he, hname⟩ := List.mem_map.mp ((mem_iff_contains _ _).mp h2)
        exact ⟨e, List.mem_filter.mp he, hname⟩
      · obtain ⟨e, he, hname⟩ := List.mem_map.mp ((mem_iff_contains _ _).mp h3)
        exact ⟨e, List.mem_filter.mp he, hname⟩
    · rintro ⟨h1, ⟨e1, he1, hn1⟩, ⟨e2, he2, hn2⟩⟩
      refine ⟨h1, ?_, ?_⟩
      · exact (mem_iff_contains _ _).mpr (List.mem_map.mpr ⟨e1, List.mem_filter.mpr he1, hn1⟩)
      · exact (mem_iff_contains _ _).mpr (List.mem_map.mpr ⟨e2, List.mem_filter.mpr he2, hn2⟩)

/-- The empty query matches every entity: the empty sequence occurs in any
string. -/
theorem entityMatches_empty (e : Entity) : entityMatches "" e = true := by
  have hnil : ("" : String).toLower.data = [] := by
    rw [String.toLower, String.map_eq]
    rfl
  have hc : ∀ l : List Char, containsSeq [] l = true := by
    intro l
    cases l <;> simp [containsSeq, List.isPrefixOf]
  simp [entityMatches, lowerIncludes, hnil, hc]

/-- C10 (confirmed): with the empty query searchNodes returns every entity
but only the relations whose two endpoints name existing entities, while
readGraph returns the graph with every stored relation; the two differ
exactly on the relations with a dangling endpoint. -/
theorem searchNodes_empty_query_vs_readGraph (g : KnowledgeGraph) :
    (searchNodes g "").entities = g.entities ∧
    readGraph g = g ∧
    (∀ r, r ∈ (searchNodes g "").relations ↔ r ∈ g.relations ∧
      (∃ e ∈ g.entities, e.name = r.«from») ∧
      (∃ e ∈ g.entities, e.name = r.«to»)) ∧
    (∀ r, (r ∈ (readGraph g).relations ∧ r ∉ (searchNodes g "").relations) ↔
      (r ∈ g.relations ∧
        ¬ ((∃ e ∈ g.entities, e.name = r.«from») ∧
           (∃ e ∈ g.entities, e.name = r.«to»)))) := by
  have hfilter : g.entities.filter (entityMatches "") = g.entities :=
    List.filter_eq_self.mpr (fun e _ => entityMatches_empty e)
  have hents : (searchNodes g "").entities = g.entities := by
    simp only [searchNodes, hfilter]
  have hrel : ∀ r, r ∈ (searchNodes g "").relations ↔ r ∈ g.relations ∧
      (∃ e ∈ g.entities, e.name = r.«from») ∧
      (∃ e ∈ g.entities, e.name = r.«to») := by
    intro r
    simp only [searchNodes, hfilter, List.mem_filter, Bool.and_eq_true]
    constructor
    · rintro ⟨h1, h2, h3⟩
      refine ⟨h1, ?_, ?_⟩
      · obtain ⟨e, he, hname⟩ := List.mem_map.mp ((mem_iff_contains _ _).mp h2)
        exact ⟨e, he, hname⟩
      · obtain ⟨e, he, hname⟩ := List.mem_map.mp ((mem_iff_contains _ _).mp h3)
        exact ⟨e, he, hname⟩
    · rintro ⟨h1, ⟨e1, he1, hn1⟩, ⟨e2, he2, hn2⟩⟩
      refine ⟨h1, ?_, ?_⟩
      · exact (mem_iff_contains _ _).mpr (List.mem_map.mpr ⟨e1, he1, hn1⟩)
      · exact (mem_iff_contains _ _).mpr (List.mem_map.mpr ⟨e2, he2, hn2⟩)
  refine ⟨hents, rfl, hrel, ?_⟩
  intro r
  constructor
  · rintro ⟨h1, h2⟩
    exact ⟨h1, fun hboth => h2 ((hrel r).mpr ⟨h1, hboth.1, hboth.2⟩)⟩
  · rintro ⟨h1, h2⟩
    exact ⟨h1, fun hmem =>
      h2 ⟨((hrel r).mp hmem).2.1, ((hrel r).mp hmem).2.2⟩⟩

end KG
